import Mathlib

/-!
A verification development for the workflow execution engine of
`src/core/WorkflowExecutor.ts` (a visual node-based workflow editor).

The engine is embedded shallowly: JavaScript objects used as string-keyed
records become association lists with record-update semantics, the mutable
`Map` of node results becomes a write log whose reader sees the last write
for each key, dynamic values become a tagged `Value` type, thrown exceptions
become `Except`, and `async`/`await` (which the engine awaits sequentially,
with no concurrency) is erased.  Node templates, which the engine only calls
through the registry's `get(type)` lookup, are modelled as an explicit
function parameter.
-/

namespace Engine

/-- Dynamic JavaScript values exchanged between nodes: `null`, booleans,
numbers, strings, arrays and plain objects (string-keyed records, kept as
ordered association lists exactly as `Object.entries` enumerates them). -/
inductive Value where
  | vNull : Value
  | vBool : Bool → Value
  | vNum : Int → Value
  | vStr : String → Value
  | vArr : List Value → Value
  | vObj : List (String × Value) → Value

/-- JavaScript truthiness of a `Value`: `null`, `false`, `0` and the empty
string are falsy; every array and object is truthy. -/
def truthy : Value → Bool
  | .vNull => false
  | .vBool b => b
  | .vNum n => n != 0
  | .vStr s => s != ""
  | .vArr _ => true
  | .vObj _ => true

/-- Assignment `m[k] = v` on a string-keyed record: replace the value in
place when the key exists, append the pair otherwise. -/
def aset {α : Type} : List (String × α) → String → α → List (String × α)
  | [], k, v => [(k, v)]
  | (k', v') :: rest, k, v =>
      if k' == k then (k, v) :: rest else (k', v') :: aset rest k v

/-- Lookup `m[k]` on a string-keyed record; `none` is JavaScript `undefined`. -/
def aget {α : Type} (m : List (String × α)) (k : String) : Option α :=
  (m.find? (fun e => e.fst == k)).map (·.snd)

/-- One entry of a node's `parameterSelections` map (`ParameterSelection` in
`types/workflow.d.ts`); `staticValue` is never read by the resolver and is
omitted. -/
structure ParameterSelection where
  source : String
  sourceNodeId : Option String := none
  sourceOutputKey : Option String := none
deriving DecidableEq

/-- The slice of a node's free-form `data` object that the executor reads:
the optional `parameterSelections` record (its entries in insertion order,
as `Object.entries` yields them). -/
structure NodeData where
  parameterSelections : Option (List (String × ParameterSelection)) := none
deriving DecidableEq

/-- The per-iteration loop context built by `executeLoopBody`. -/
structure LoopContext where
  element : Value
  index : Int
  array : List Value
  loopNodeId : String

/-- A workflow node as the executor sees it: the declared `Node` interface
plus the dynamically attached fields (`parentNode`, `isLoopBodyNode`,
`loopContext`, `loopBodyNode`) that the editor and `executeLoopBody` set.
The UI-only `position` field is omitted. -/
structure Node where
  id : String
  type : String
  data : NodeData := {}
  parentNode : Option String := none
  isLoopBodyNode : Bool := false
  loopContext : Option LoopContext := none
  loopBodyNode : Option String := none

/-- An edge of the workflow document; the executor reads only `source` and
`target`. -/
structure Edge where
  id : String := ""
  source : String
  sourceHandle : String := ""
  target : String
  targetHandle : String := ""
deriving DecidableEq

/-- A workflow document: nodes plus edges. -/
structure Workflow where
  nodes : List Node
  edges : List Edge

/-- JavaScript truthiness of the `parentNode` field, as tested by
`if (!nodeAny.parentNode)` and `node.parentNode && ...`: `undefined`, `null`
and the empty string are all falsy, so an empty-string reference behaves as
"no parent". -/
def parentRef (n : Node) : Option String :=
  match n.parentNode with
  | some s => if s == "" then none else some s
  | none => none

/-- A recorded `NodeExecutionResult`.  The wall-clock `timestamp` field is
not modelled (no claim mentions it). -/
structure NodeExecutionResult where
  nodeId : String
  nodeType : String
  success : Bool
  outputs : List (String × Value)
  error : Option String := none

/-- The run state's `nodeResults` map, modelled as the log of `Map.set`
calls: a reader sees the last write for a key, and the number of log entries
for a key counts how many times that key was written during the run. -/
structure RunState where
  log : List (String × NodeExecutionResult)

/-- A freshly constructed executor's empty results map. -/
def RunState.empty : RunState := ⟨[]⟩

/-- `this.workflowContext.nodeResults.set(id, r)`. -/
def setResult (st : RunState) (id : String) (r : NodeExecutionResult) : RunState :=
  ⟨st.log ++ [(id, r)]⟩

/-- `this.workflowContext.nodeResults.get(id)`: the last write for `id`. -/
def resultsGet (st : RunState) (id : String) : Option NodeExecutionResult :=
  st.log.foldl (fun acc e => if e.fst == id then some e.snd else acc) none

/-- Whether the results map has an entry for `id`. -/
def hasResult (st : RunState) (id : String) : Bool :=
  (resultsGet st id).isSome

/-- How many times `id` was written into the results map during the run. -/
def writeCount (st : RunState) (id : String) : Nat :=
  (st.log.filter (fun e => e.fst == id)).length

/-- The regular (non-loop-context) part of `getNodeInputs` (lines 173-198):
parameter-selection mapping when `parameterSelections` is attached, the
positional default otherwise.  `selection.sourceOutputKey || 'output'` falls
back to `"output"` for an absent or empty key. -/
def regularInputs (node : Node) (pid : String) (parentResult : NodeExecutionResult) :
    List (String × Value) :=
  match node.data.parameterSelections with
  | some sels =>
      sels.foldl
        (fun inputs e =>
          if e.snd.source == "upstream" && e.snd.sourceNodeId == some pid then
            let outputKey :=
              match e.snd.sourceOutputKey with
              | some s => if s == "" then "output" else s
              | none => "output"
            match aget parentResult.outputs outputKey with
            | some v => aset inputs e.fst v
            | none => inputs
          else inputs)
        []
  | none =>
      let base :=
        match aget parentResult.outputs "output" with
        | some v => aset (aset [] "input" v) "inputArray" v
        | none => []
      parentResult.outputs.foldl (fun inputs e => aset inputs e.fst e.snd) base

/-- Embedding of `WorkflowExecutor.getNodeInputs` (lines 145-203).  The
checks run in source order: no parent, then missing/failed parent result,
then the loop-context branch, then parameter selections or the positional
default. -/
def getNodeInputs (st : RunState) (node : Node) : List (String × Value) :=
  match parentRef node with
  | none => []
  | some pid =>
    match resultsGet st pid with
    | none => []
    | some parentResult =>
      if !parentResult.success then []
      else
        match node.isLoopBodyNode, node.loopContext with
        | true, some lc =>
            aset (aset (aset (aset (aset (aset [] "element" lc.element)
              "index" (Value.vNum lc.index))
              "array" (Value.vArr lc.array))
              "loopNodeId" (Value.vStr lc.loopNodeId))
              "input" lc.element)
              "inputArray" (Value.vArr [lc.element])
        | _, _ => regularInputs node pid parentResult

/-- The `getUpstreamData` accessor closed over the run state by
`createExecutionContext` (lines 216-219). -/
def getUpstreamData (st : RunState) (upstreamNodeId : String) :
    Option (List (String × Value)) :=
  match resultsGet st upstreamNodeId with
  | some r => if r.success then some r.outputs else none
  | none => none

/-- Adjacency lookup `adjacencyList.get(id) || []`. -/
def adjGet (adj : List (String × List String)) (k : String) : List String :=
  match aget adj k with
  | some l => l
  | none => []

/-- The adjacency table built by `hasCycles` (lines 431-437): one entry per
node id initialised to `[]`, then every edge's target appended to its
source's list (creating the entry when the source is not a node). -/
def buildAdjacency (nodes : List Node) (edges : List Edge) : List (String × List String) :=
  let base := nodes.foldl (fun m n => aset m n.id []) []
  edges.foldl (fun m e => aset m e.source (adjGet m e.source ++ [e.target])) base

/-- One recursive `dfs(nodeId)` call of the cycle-detecting depth-first
search of `hasCycles` (lines 439-454): mark the id visited, put it on the
recursion stack, and walk its neighbours; an unvisited neighbour is searched
recursively, a visited neighbour that is on the recursion stack is a back
edge (a cycle).  The JavaScript loop returns `true` as soon as a cycle is
found; the fold keeps walking but propagates the found cycle unchanged,
which is observationally the same (the search has no other effect).  The
fuel bounds the depth of nested calls: each nested call visits a previously
unvisited id drawn from the node ids and edge targets, so a fuel larger
than that count never runs out; `none` reports exhaustion and is
unreachable from `hasCycles`. -/
def dfsNode (adj : List (String × List String)) :
    Nat → List String → List String → String → Option (Bool × List String)
  | 0, _, _, _ => none
  | fuel + 1, visited, stack, id =>
      (adjGet adj id).foldl
        (fun acc nb =>
          match acc with
          | none => none
          | some (true, v) => some (true, v)
          | some (false, v) =>
              if nb ∈ v then
                if nb ∈ id :: stack then some (true, v) else some (false, v)
              else dfsNode adj fuel v (id :: stack) nb)
        (some (false, id :: visited))

/-- The outer loop of `hasCycles` (lines 456-460): start a search from every
node not yet visited. -/
def dfsAll (adj : List (String × List String)) (fuel : Nat) :
    List String → List Node → Option Bool
  | _, [] => some false
  | visited, n :: rest =>
      if n.id ∈ visited then dfsAll adj fuel visited rest
      else
        match dfsNode adj fuel visited [] n.id with
        | none => none
        | some (true, _) => some true
        | some (false, v') => dfsAll adj fuel v' rest

/-- Embedding of `WorkflowExecutor.hasCycles` (lines 426-463).  The fuel
`nodes.length + edges.length + 1` exceeds the number of ids the search can
ever visit (node ids plus edge targets), so the `getD` default is never
taken. -/
def hasCycles (nodes : List Node) (edges : List Edge) : Bool :=
  (dfsAll (buildAdjacency nodes edges) (nodes.length + edges.length + 1) [] nodes).getD false

/-- The breadth-first traversal of `getReachableNodes` (lines 480-491): pop
the queue front, skip ids already reached, otherwise mark the id reached and
enqueue its not-yet-reached neighbours.  The fuel bounds the number of loop
iterations; every enqueue after the initial one consumes a distinct
adjacency entry, so there are at most `1 + edges.length` pops and the fuel
`edges.length + 2` never runs out. -/
def bfsReach (adj : List (String × List String)) :
    Nat → List String → List String → Option (List String)
  | _, reachable, [] => some reachable
  | 0, _, _ :: _ => none
  | fuel + 1, reachable, cur :: queue =>
      if cur ∈ reachable then bfsReach adj fuel reachable queue
      else
        bfsReach adj fuel (cur :: reachable)
          (queue ++ (adjGet adj cur).filter (fun nb => decide (nb ∉ cur :: reachable)))

/-- Embedding of `WorkflowExecutor.getReachableNodes` (lines 468-494); its
adjacency table is built from the edges alone. -/
def getReachableNodes (startNode : Node) (edges : List Edge) : List String :=
  let adj := edges.foldl (fun m e => aset m e.source (adjGet m e.source ++ [e.target])) []
  (bfsReach adj (edges.length + 2) [] [startNode.id]).getD []

/-- Embedding of `WorkflowExecutor.validateWorkflow` (lines 288-323): the
checks run in source order and short-circuit on the first failure; `none`
means valid. -/
def validateWorkflow (w : Workflow) : Option String :=
  let startNodes := w.nodes.filter (fun n => n.type == "workflow-start")
  match startNodes with
  | [] => some "工作流必须包含一个开始节点"
  | startNode :: restStarts =>
    if restStarts.length > 0 then some "工作流只能有一个开始节点"
    else
      let endNodes := w.nodes.filter (fun n => n.type == "workflow-end")
      if endNodes.length == 0 then some "工作流必须包含一个结束节点"
      else if endNodes.length > 1 then some "工作流只能有一个结束节点"
      else if hasCycles w.nodes w.edges then some "工作流不能包含循环连接"
      else
        let reachable := getReachableNodes startNode w.edges
        let unreachableNodes := w.nodes.filter (fun n => decide (n.id ∉ reachable))
        if unreachableNodes.length > 0 then
          some ("存在不可达的节点: " ++ String.intercalate ", " (unreachableNodes.map Node.id))
        else none

/-- State threaded through the order builder: the order built so far and the
set of processed ids (which always holds exactly the ids of `result`, in
order). -/
structure BuildState where
  result : List Node
  processed : List String

/-- The recursion of the helper `buildChainFromNode` inside
`buildExecutionOrder` (lines 383-403).  `seen` holds the node ids currently
on the JavaScript call stack (the chain of parent references being walked).
When a parent id is already on the stack, nothing having been processed in
between, the JavaScript helper re-enters itself with identical state and
recurses forever (a stack overflow); that divergence is modelled by `none`.
A recursive call on a parent id that is not in the node list returns at once
with the state unchanged, so it is short-circuited here, which keeps the
walk inside the node ids.  The fuel only drives the structural recursion:
every recursive step pushes onto `seen` a fresh id drawn from the node ids,
so the canonical fuel `nodes.length + 1` used by `buildChainFromNode` can
never run out (`buildChainAux_fuel_congr` makes this precise), and `none`
means exactly the stack overflow. -/
def buildChainAux (nodes : List Node) :
    Nat → List String → String → BuildState → Option BuildState
  | 0, _, _, _ => none
  | fuel + 1, seen, nodeId, st =>
    if nodeId ∈ st.processed then some st
    else
      match nodes.find? (fun n => n.id == nodeId) with
      | none => some st
      | some node =>
        let afterParent : Option BuildState :=
          match parentRef node with
          | some p =>
            if p ∈ st.processed then some st
            else if p ∈ seen then none
            else if (nodes.find? (fun n => n.id == p)).isSome then
              buildChainAux nodes fuel (p :: seen) p st
            else some st
          | none => some st
        match afterParent with
        | none => none
        | some st' =>
          if nodeId ∈ st'.processed then some st'
          else some ⟨st'.result ++ [node], st'.processed ++ [nodeId]⟩

/-- Embedding of the helper `buildChainFromNode`, at the canonical fuel. -/
def buildChainFromNode (nodes : List Node) (seen : List String) (nodeId : String)
    (st : BuildState) : Option BuildState :=
  buildChainAux nodes (nodes.length + 1) seen nodeId st

/-- The loops of `buildExecutionOrder` over root nodes (lines 409-411) and
over all nodes (the defensive sweep, lines 414-418): each starts a chain
from one node.  The sweep's `!processed.has(node.id)` pre-check is the first
line of `buildChainFromNode` and is therefore not repeated here. -/
def runChains (nodes : List Node) : List Node → BuildState → Option BuildState
  | [], st => some st
  | n :: rest, st =>
    match buildChainFromNode nodes [n.id] n.id st with
    | none => none
    | some st' => runChains nodes rest st'

/-- Embedding of `WorkflowExecutor.buildExecutionOrder` (lines 378-421):
chains from the root nodes (those whose `parentNode` is falsy), then the
defensive sweep over every node.  `none` models the stack overflow on a
cyclic `parentNode` chain. -/
def buildExecutionOrder (nodes : List Node) : Option (List Node) :=
  match runChains nodes (nodes.filter (fun n => (parentRef n).isNone)) ⟨[], []⟩ with
  | none => none
  | some st1 =>
    match runChains nodes nodes st1 with
    | none => none
    | some st2 => some st2.result

/-- Whether the walk up the `parentNode` chain from `id` stays free of
repetition, mirroring the recursion pattern of `buildChainAux` exactly (the
same find-parent-recurse structure and the same fuel, without the processed
set).  The fuel-exhausted branch returns `false` and is unreachable at the
canonical fuel. -/
def noLoopFromAux (nodes : List Node) : Nat → List String → String → Bool
  | 0, _, _ => false
  | fuel + 1, seen, id =>
    match nodes.find? (fun n => n.id == id) with
    | none => true
    | some node =>
      match parentRef node with
      | none => true
      | some p =>
        if p ∈ seen then false
        else if (nodes.find? (fun n => n.id == p)).isSome then
          noLoopFromAux nodes fuel (p :: seen) p
        else true

/-- The repetition-free parent walk at the canonical fuel. -/
def noLoopFrom (nodes : List Node) (seen : List String) (id : String) : Bool :=
  noLoopFromAux nodes (nodes.length + 1) seen id

/-- Acyclicity of the `parentNode` pointer structure: the parent chain from
every node terminates without revisiting an id. -/
def AcyclicParents (nodes : List Node) : Prop :=
  ∀ n ∈ nodes, noLoopFrom nodes [n.id] n.id = true

/-- The context surface a template receives, restricted to the members that
carry engine behaviour: the `getUpstreamData` accessor, `getLoopBodyNode`,
and the `executeLoopBody` callback (all closed over the live run state,
which the embedding threads explicitly).  The remaining members (logger,
`getAllUpstreamData`, `getUpstreamDataByType`) do not touch or change the
run state and are not modelled. -/
structure CtxFns where
  getUpstream : RunState → String → Option (List (String × Value))
  getLoopBody : String → Option Node
  execLoopBody : String → Node → Value → Int → List Value → RunState →
    RunState × Except String Value

/-- A node template as the engine consumes it: the `execute` function,
taking resolved inputs, the node's data and the execution context, returning
outputs or throwing.  The run state is threaded so that a template's
`executeLoopBody` calls can record results. -/
structure Template where
  execute : List (String × Value) → NodeData → CtxFns → RunState →
    RunState × Except String (List (String × Value))

/-- The template registry's read surface, `nodeRegistry.get(type)`. -/
def Registry : Type := String → Option Template

/-- Embedding of the `getLoopBodyNode` context member (lines 248-256). -/
def getLoopBodyNode (allNodes : List Node) (loopNodeId : String) : Option Node :=
  match allNodes.find? (fun n => n.id == loopNodeId) with
  | none => none
  | some loopNode =>
    match loopNode.loopBodyNode with
    | none => none
    | some bid =>
        if bid == "" then none else allNodes.find? (fun n => n.id == bid)

/-- JavaScript string interpolation of a possibly-undefined error field. -/
def errText (e : Option String) : String := e.getD "undefined"

/-- The transient loop-body descriptor built by `executeLoopBody` (lines
341-353): the body node with `loopContext` attached and `isLoopBodyNode`
set. -/
def withLoopContext (bodyNode : Node) (lc : LoopContext) : Node :=
  { bodyNode with loopContext := some lc, isLoopBodyNode := true }

/-- Embedding of `WorkflowExecutor.executeLoopBody` (lines 333-372),
parameterised by the node executor it delegates to: build the transient
descriptor, execute it, throw on failure, and return
`result.outputs.output || result.outputs` (the `output` field when truthy,
the whole outputs map otherwise). -/
def loopBodyStep (exec : Node → RunState → RunState × Except String NodeExecutionResult)
    (loopNode bodyNode : Node) (element : Value) (index : Int) (array : List Value)
    (st : RunState) : RunState × Except String Value :=
  let ctxNode := withLoopContext bodyNode ⟨element, index, array, loopNode.id⟩
  match exec ctxNode st with
  | (st', .error e) => (st', .error e)
  | (st', .ok r) =>
    if r.success then
      (st', .ok (match aget r.outputs "output" with
        | some v => if truthy v then v else Value.vObj r.outputs
        | none => Value.vObj r.outputs))
    else (st', .error ("循环体执行失败: " ++ errText r.error))

/-- The message of the `RangeError` a JavaScript engine raises when
recursion exhausts the call stack. -/
def stackOverflowMsg : String := "Maximum call stack size exceeded"

/-- The execution context built by `createExecutionContext` (lines 208-274),
parameterised by the node executor its `executeLoopBody` member re-enters.
That member (lines 258-266) looks the loop node up in the current workflow;
when the lookup fails the JavaScript code dereferences `undefined` and
throws a `TypeError`. -/
def mkCtx (execNode : Node → RunState → RunState × Except String NodeExecutionResult)
    (allNodes : List Node) : CtxFns :=
  { getUpstream := getUpstreamData
    getLoopBody := getLoopBodyNode allNodes
    execLoopBody := fun loopNodeId bodyNode element index array st =>
      match allNodes.find? (fun n => n.id == loopNodeId) with
      | some loopNode => loopBodyStep execNode loopNode bodyNode element index array st
      | none => (st, .error "TypeError: Cannot read properties of undefined") }

/-- The successful `ExecutionResult` that `executeNode` records (lines
113-119). -/
def okResult (node : Node) (outputs : List (String × Value)) : NodeExecutionResult :=
  { nodeId := node.id, nodeType := node.type, success := true,
    outputs := outputs, error := none }

/-- The failed `ExecutionResult` that `executeNode` records in its catch
block (lines 127-134). -/
def errResult (node : Node) (e : String) : NodeExecutionResult :=
  { nodeId := node.id, nodeType := node.type, success := false,
    outputs := [], error := some e }

/-- Embedding of `WorkflowExecutor.executeNode` (lines 93-139).  A missing
template throws (outside the try block); a template error is caught and
recorded as a failed result; both outcomes write exactly one result keyed by
the node's id.  The fuel bounds the depth of template re-entry through
`executeLoopBody`; running out models the call-stack limit. -/
def executeNodeF (registry : Registry) (allNodes : List Node) :
    Nat → Node → RunState → RunState × Except String NodeExecutionResult
  | 0, _, st => (st, .error stackOverflowMsg)
  | fuel + 1, node, st =>
    match registry node.type with
    | none => (st, .error ("未找到节点类型模板: " ++ node.type))
    | some template =>
      let inputs := getNodeInputs st node
      let ctx := mkCtx (fun n s => executeNodeF registry allNodes fuel n s) allNodes
      match template.execute inputs node.data ctx st with
      | (st', .ok outputs) =>
          let result := okResult node outputs
          (setResult st' node.id result, .ok result)
      | (st', .error e) =>
          let result := errResult node e
          (setResult st' node.id result, .ok result)

/-- The public `executeLoopBody` entry point (lines 333-372), delegating one
iteration to `executeNodeF`. -/
def executeLoopBodyF (registry : Registry) (allNodes : List Node) (fuel : Nat)
    (loopNode bodyNode : Node) (element : Value) (index : Int) (array : List Value)
    (st : RunState) : RunState × Except String Value :=
  loopBodyStep (fun n s => executeNodeF registry allNodes fuel n s)
    loopNode bodyNode element index array st

/-- The orchestrator's main loop (lines 59-72): execute the ordered nodes in
turn, abort with a thrown error on the first failed result, and remember the
latest end node's `finalOutput`. -/
def runOrderF (registry : Registry) (allNodes : List Node) (fuel : Nat) :
    List Node → RunState → Option Value → RunState × Except String (Option Value)
  | [], st, finalOutput => (st, .ok finalOutput)
  | node :: rest, st, finalOutput =>
    match executeNodeF registry allNodes fuel node st with
    | (st', .error e) => (st', .error e)
    | (st', .ok result) =>
      if result.success then
        runOrderF registry allNodes fuel rest st'
          (if node.type == "workflow-end" then aget result.outputs "finalOutput"
           else finalOutput)
      else
        (st', .error ("节点 " ++ node.id ++ " 执行失败: " ++ errText result.error))

/-- The structured object `executeWorkflow` returns; `results` is the
`nodeResults` map materialised by `Object.fromEntries`, represented by the
run state whose per-key view is the last write. -/
structure WorkflowRunOutput where
  success : Bool
  results : RunState
  finalOutput : Option Value := none
  error : Option String := none

/-- Embedding of `WorkflowExecutor.executeWorkflow` (lines 38-88): validate,
build the order, run the nodes; every thrown error — a validation failure, a
missing template, a failed node, or the stack overflow of the order builder
on a cyclic parent chain — is caught and converted into a returned object
carrying the accumulated results map.  The function is total: no exception
escapes. -/
def executeWorkflowF (registry : Registry) (fuel : Nat) (w : Workflow) (st : RunState) :
    RunState × WorkflowRunOutput :=
  match validateWorkflow w with
  | some err => (st, { success := false, results := st, error := some err })
  | none =>
    match buildExecutionOrder w.nodes with
    | none => (st, { success := false, results := st, error := some stackOverflowMsg })
    | some order =>
      match runOrderF registry w.nodes fuel order st none with
      | (st', .ok finalOutput) =>
          (st', { success := true, results := st', finalOutput := finalOutput })
      | (st', .error e) =>
          (st', { success := false, results := st', error := some e })

/-- A template that ignores its inputs and context, leaves the run state
untouched and returns fixed outputs. -/
def constTemplate (outs : List (String × Value)) : Template :=
  ⟨fun _ _ _ st => (st, .ok outs)⟩

/-- A template that always throws with a fixed message. -/
def failTemplate (msg : String) : Template :=
  ⟨fun _ _ _ st => (st, .error msg)⟩

/-- A template whose execute function never touches the run state (it may
still read it); every template that does not re-enter the executor through
`executeLoopBody` is of this kind, since the results table is the only
mutable state and only `executeNode` writes it. -/
def StateBlind (t : Template) : Prop :=
  ∀ inputs data ctx st, (t.execute inputs data ctx st).1 = st

/-- A template that returns successfully, without touching the run state,
whatever its inputs. -/
def AlwaysSucceeds (t : Template) : Prop :=
  ∀ inputs data ctx st, ∃ outs, t.execute inputs data ctx st = (st, .ok outs)

/-- A template that throws, without touching the run state, whatever its
inputs. -/
def AlwaysThrows (t : Template) : Prop :=
  ∀ inputs data ctx st, ∃ e, t.execute inputs data ctx st = (st, .error e)

/-- The loop context `executeLoopBody` would attach for the first element of
the two-element array `[5, 6]` owned by loop node `loop-1`. -/
def c1LoopContext : LoopContext :=
  { element := Value.vNum 5, index := 0,
    array := [Value.vNum 5, Value.vNum 6], loopNodeId := "loop-1" }

/-- A loop-body node descriptor exactly as `executeLoopBody` constructs it
mid-iteration: `parentNode` points at the owning loop node (as the editor
sets it for a loop-body connection), `isLoopBodyNode` is set and the
iteration's `loopContext` is attached.  It also declares a parameter
binding (this selection), to exercise the precedence of the loop-context
path. -/
def c1Selection : ParameterSelection :=
  { source := "upstream", sourceNodeId := some "loop-1", sourceOutputKey := some "output" }

/-- The descriptor itself. -/
def c1BodyNode : Node :=
  { id := "body-1", type := "math-node",
    data := { parameterSelections := some [("x", c1Selection)] },
    parentNode := some "loop-1",
    isLoopBodyNode := true,
    loopContext := some c1LoopContext }

/-- A run state in which the owning loop node already has a successful
recorded result — the situation that never holds while the loop itself is
still executing. -/
def c1LoopDoneState : RunState :=
  ⟨[("loop-1", { nodeId := "loop-1", nodeType := "loop-node", success := true,
                 outputs := [("output", Value.vArr [Value.vNum 7])] })]⟩

/-- The demo workflow's start node. -/
def sNode : Node := { id := "s", type := "workflow-start" }

/-- The demo workflow's loop-owning node. -/
def lNode : Node :=
  { id := "l", type := "demo-loop", parentNode := some "s", loopBodyNode := some "b" }

/-- The demo workflow's loop-body node, whose `parentNode` is the loop node
(as the editor sets it for a loop-body connection). -/
def bNode : Node :=
  { id := "b", type := "body", parentNode := some "l", isLoopBodyNode := true }

/-- The demo workflow's end node. -/
def eNode : Node := { id := "e", type := "workflow-end", parentNode := some "l" }

/-- A workflow with a start node, a loop-owning node `l`, its loop-body node
`b`, and an end node.  The order builder places all four nodes, `b` among
them. -/
def demoNodes : List Node := [sNode, lNode, bNode, eNode]

/-- Edges matching `demoNodes`: every node reachable from the start, no
cycle. -/
def demoEdges : List Edge :=
  [ { source := "s", target := "l" }, { source := "l", target := "b" },
    { source := "l", target := "e" } ]

/-- The demo workflow document. -/
def demoWorkflow : Workflow := ⟨demoNodes, demoEdges⟩

/-- A loop-owning template in the style of `LoopNodeTemplate`'s map mode: it
looks up its loop-body node and runs one `executeLoopBody` sub-execution per
element of the two-element array `[10, 20]`, collecting the results. -/
def demoLoopTemplate : Template :=
  ⟨fun _ _ ctx st =>
    match ctx.getLoopBody "l" with
    | none => (st, .error "no loop body")
    | some body =>
      match ctx.execLoopBody "l" body (Value.vNum 10) 0 [Value.vNum 10, Value.vNum 20] st with
      | (st1, .ok r1) =>
        match ctx.execLoopBody "l" body (Value.vNum 20) 1 [Value.vNum 10, Value.vNum 20] st1 with
        | (st2, .ok r2) => (st2, .ok [("output", Value.vArr [r1, r2])])
        | (st2, .error e) => (st2, .error e)
      | (st1, .error e) => (st1, .error e)⟩

/-- A loop-owning template that completes one successful `executeLoopBody`
iteration and then throws (for instance because a later element fails with
`breakOnError` set). -/
def demoLoopThenFailTemplate : Template :=
  ⟨fun _ _ ctx st =>
    match ctx.getLoopBody "l" with
    | none => (st, .error "no loop body")
    | some body =>
      match ctx.execLoopBody "l" body (Value.vNum 10) 0 [Value.vNum 10] st with
      | (st1, .ok _) => (st1, .error "第 1 项转换失败")
      | (st1, .error e) => (st1, .error e)⟩

/-- The registry for the demo workflow, with a choice of loop template. -/
def demoRegistry (loopTemplate : Template) : Registry := fun ty =>
  if ty == "workflow-start" then some (constTemplate [("output", Value.vNum 0)])
  else if ty == "demo-loop" then some loopTemplate
  else if ty == "body" then some (constTemplate [("output", Value.vNum 7)])
  else if ty == "workflow-end" then some (constTemplate [("finalOutput", Value.vStr "done")])
  else none

/-- A registry whose only template is a loop body producing the falsy output
`false`. -/
def c7Registry : Registry := fun ty =>
  if ty == "falsy-body" then some (constTemplate [("output", Value.vBool false)]) else none

/-- A loop node and body node for the falsy-output sub-execution. -/
def c7LoopNode : Node := { id := "l7", type := "demo-loop" }

/-- The loop-body node whose template returns `{output: false}`. -/
def c7BodyNode : Node := { id := "b7", type := "falsy-body" }

/-- The result the falsy-output body records. -/
def c7BodyResult : NodeExecutionResult :=
  { nodeId := "b7", nodeType := "falsy-body", success := true,
    outputs := [("output", Value.vBool false)], error := none }

/-- The run state after the falsy-output sub-execution recorded its
result. -/
def c7DoneState : RunState := ⟨[("b7", c7BodyResult)]⟩

/-- A plain node with a parent and no parameter selections. -/
def c9Node : Node := { id := "n", type := "math-node", parentNode := some "p9" }

/-- A successful parent result with an `output` field and one extra key. -/
def c9ParentResult : NodeExecutionResult :=
  { nodeId := "p9", nodeType := "data-node", success := true,
    outputs := [("output", Value.vArr [Value.vNum 7]), ("extra", Value.vNum 9)] }

/-- A run state recording the parent result. -/
def c9State : RunState := ⟨[("p9", c9ParentResult)]⟩

/-- Start node of the three-node chain used for the abort scenario. -/
def c2s : Node := { id := "s2", type := "workflow-start" }

/-- Middle node whose template always throws. -/
def c2m : Node := { id := "m2", type := "boom", parentNode := some "s2" }

/-- End node of the chain, scheduled after the failing node. -/
def c2e : Node := { id := "e2", type := "workflow-end", parentNode := some "m2" }

/-- The chain's node list. -/
def c2Nodes : List Node := [c2s, c2m, c2e]

/-- The chain's edges. -/
def c2Edges : List Edge :=
  [ { source := "s2", target := "m2" }, { source := "m2", target := "e2" } ]

/-- The chain workflow document. -/
def c2Workflow : Workflow := ⟨c2Nodes, c2Edges⟩

/-- The chain's registry: the middle node's template throws. -/
def c2Registry : Registry := fun ty =>
  if ty == "workflow-start" then some (constTemplate [("output", Value.vNum 1)])
  else if ty == "boom" then some (failTemplate "boom error")
  else if ty == "workflow-end" then some (constTemplate [("finalOutput", Value.vNull)])
  else none

/-- A registry with no template for the `boom` type, for the
template-lookup-failure scenario. -/
def c8Registry : Registry := fun ty =>
  if ty == "workflow-start" then some (constTemplate [("output", Value.vNum 1)])
  else if ty == "workflow-end" then some (constTemplate [("finalOutput", Value.vNull)])
  else none

/-- Every node of the list `l` is preceded by its parent: whenever the node
at position `i` has a (truthy) parent reference that resolves to a node of
the node set, that parent id already occurs among the ids of the first `i`
entries. -/
def ParentsBefore (nodes : List Node) (l : List Node) : Prop :=
  ∀ i (hi : i < l.length) pid, parentRef l[i] = some pid →
    (nodes.find? (fun q => q.id == pid)).isSome = true →
    pid ∈ (l.take i).map Node.id

/-- The invariant the order builder maintains: the processed list is exactly
the ids of the built order, without repetition, the built order draws its
nodes from the node set, and every placed node's resolvable parent is placed
earlier. -/
def ChainInv (nodes : List Node) (st : BuildState) : Prop :=
  st.result.map Node.id = st.processed
    ∧ st.processed.Nodup
    ∧ (∀ x ∈ st.result, x ∈ nodes)
    ∧ ParentsBefore nodes st.result

/-- Two nodes whose `parentNode` pointers form a cycle; the JavaScript
order builder recurses forever on them. -/
def c5CycNodes : List Node :=
  [ { id := "a", type := "x", parentNode := some "b" },
    { id := "b", type := "x", parentNode := some "a" } ]

/-- Two distinct nodes sharing one id; the order builder emits only the
first. -/
def c5DupNodes : List Node :=
  [ { id := "d", type := "x" }, { id := "d", type := "y" } ]

-- ===== THEOREMS =====

/-- Record assignment followed by lookup of the same key yields the
assigned value. -/
theorem aset_aget_same (m : List (String × Value)) (k : String) (v : Value) :
    aget (aset m k v) k = some v := by
  induction m with
  | nil => simp [aset, aget]
  | cons e rest ih =>
    by_cases h : e.fst == k
    · simp [aset, aget, h]
    · simp only [aset] at *
      cases e with
      | mk k' v' =>
        simp only at h
        simp [h, aget, List.find?] at ih ⊢
        simpa [h] using ih

/-- C1: the spec says a node descriptor with `isLoopBodyNode` and an
attached `loopContext` — as `executeLoopBody` constructs it per iteration —
resolves to the loop-context input map (element, index, array, loopNodeId,
plus the `input`/`inputArray` aliases), taking precedence over parameter
bindings.  The code checks the parent's recorded result first: the body
node's `parentNode` is the owning loop node, which has no recorded result
while it is still executing, so the resolver returns the empty map and the
loop-context branch is dead on exactly the descriptors `executeLoopBody`
builds (first two conjuncts).  The branch and its precedence over the
declared parameter binding only take effect once the parent's result exists
and succeeded (third conjunct), which never holds mid-loop. -/
theorem c1_loop_context_path_dead :
    getNodeInputs RunState.empty c1BodyNode = []
      ∧ aget (getNodeInputs RunState.empty c1BodyNode) "element" = none
      ∧ getNodeInputs c1LoopDoneState c1BodyNode =
          [("element", Value.vNum 5), ("index", Value.vNum 0),
           ("array", Value.vArr [Value.vNum 5, Value.vNum 6]),
           ("loopNodeId", Value.vStr "loop-1"),
           ("input", Value.vNum 5), ("inputArray", Value.vArr [Value.vNum 5])] :=
  ⟨rfl, rfl, rfl⟩

/-- C10: `getUpstreamData` returns `null` when the queried node has no
recorded result or a failed one, and the successful result's outputs map
otherwise. -/
theorem c10_get_upstream_data (st : RunState) (id : String) :
    (resultsGet st id = none → getUpstreamData st id = none)
      ∧ (∀ r, resultsGet st id = some r → r.success = false →
          getUpstreamData st id = none)
      ∧ (∀ r, resultsGet st id = some r → r.success = true →
          getUpstreamData st id = some r.outputs) := by
  refine ⟨fun h => ?_, fun r h hs => ?_, fun r h hs => ?_⟩
  · simp [getUpstreamData, h]
  · simp [getUpstreamData, h, hs]
  · simp [getUpstreamData, h, hs]

/-- C9: a node with no `parameterSelections` whose parent succeeded with
`outputs = {output: V, extra: W}` resolves to inputs containing
`input = V`, `inputArray = V` and `extra = W`. -/
theorem c9_fallback_inputs (node : Node) (pid : String) (st : RunState)
    (pr : NodeExecutionResult) (V W : Value)
    (hparent : parentRef node = some pid)
    (hres : resultsGet st pid = some pr)
    (hsucc : pr.success = true)
    (houts : pr.outputs = [("output", V), ("extra", W)])
    (hsel : node.data.parameterSelections = none)
    (hloop : node.isLoopBodyNode = false) :
    aget (getNodeInputs st node) "input" = some V
      ∧ aget (getNodeInputs st node) "inputArray" = some V
      ∧ aget (getNodeInputs st node) "extra" = some W := by
  have hred : getNodeInputs st node = regularInputs node pid pr := by
    simp only [getNodeInputs, hparent, hres, hsucc, hloop, Bool.not_true,
      Bool.false_eq_true, if_false]
  rw [hred]
  unfold regularInputs
  rw [hsel, houts]
  exact ⟨rfl, rfl, rfl⟩

/-- Closed instance of the C9 fallback-input theorem on a concrete node,
parent result and state. -/
theorem c9_fallback_inputs_witness :
    aget (getNodeInputs c9State c9Node) "input" = some (Value.vArr [Value.vNum 7])
      ∧ aget (getNodeInputs c9State c9Node) "inputArray" = some (Value.vArr [Value.vNum 7])
      ∧ aget (getNodeInputs c9State c9Node) "extra" = some (Value.vNum 9) :=
  c9_fallback_inputs c9Node "p9" c9State c9ParentResult
    (Value.vArr [Value.vNum 7]) (Value.vNum 9) rfl rfl rfl rfl rfl rfl

/-- C7 (amended): a loop-body sub-execution whose delegated node execution
succeeds returns the `output` field when that field is present AND truthy;
when the field is absent OR falsy (`0`, `false`, `null`, the empty string)
it returns the whole outputs map, because the source computes
`result.outputs.output || result.outputs`; a failed sub-execution throws. -/
theorem c7_loop_body_return (registry : Registry) (allNodes : List Node) (fuel : Nat)
    (loopNode bodyNode : Node) (element : Value) (index : Int) (array : List Value)
    (st st' : RunState) (r : NodeExecutionResult)
    (hexec : executeNodeF registry allNodes fuel
        (withLoopContext bodyNode ⟨element, index, array, loopNode.id⟩) st = (st', .ok r)) :
    (∀ v, r.success = true → aget r.outputs "output" = some v → truthy v = true →
        executeLoopBodyF registry allNodes fuel loopNode bodyNode element index array st
          = (st', .ok v))
      ∧ (r.success = true →
          (aget r.outputs "output" = none ∨
            ∃ v, aget r.outputs "output" = some v ∧ truthy v = false) →
          executeLoopBodyF registry allNodes fuel loopNode bodyNode element index array st
            = (st', .ok (Value.vObj r.outputs)))
      ∧ (r.success = false →
          executeLoopBodyF registry allNodes fuel loopNode bodyNode element index array st
            = (st', .error ("循环体执行失败: " ++ errText r.error))) := by
  simp only [executeLoopBodyF, loopBodyStep]
  rw [hexec]
  refine ⟨fun v hs hv ht => ?_, fun hs h => ?_, fun hs => ?_⟩
  · simp [hs, hv, ht]
  · rcases h with h | ⟨v, hv, ht⟩
    · simp [hs, h]
    · simp [hs, hv, ht]
  · simp [hs]

/-- Closed instance of the C7 return-value theorem: the falsy-output body
makes the sub-execution return the whole outputs map. -/
theorem c7_loop_body_return_witness :
    executeLoopBodyF c7Registry [] 1 c7LoopNode c7BodyNode (Value.vNum 1) 0
        [Value.vNum 1] RunState.empty
      = (c7DoneState, .ok (Value.vObj [("output", Value.vBool false)])) := by
  have h := c7_loop_body_return c7Registry [] 1 c7LoopNode c7BodyNode
    (Value.vNum 1) 0 [Value.vNum 1] RunState.empty c7DoneState c7BodyResult rfl
  exact h.2.1 rfl (Or.inr ⟨Value.vBool false, rfl, rfl⟩)

/-- C7 counterexample: the claim says the `output` field is returned
whenever the key is present, whatever its value, including `false`; on a
sub-execution that succeeds with `{output: false}` the code instead returns
the whole outputs map (and not the value `false`). -/
theorem c7_counterexample :
    (executeLoopBodyF c7Registry [] 1 c7LoopNode c7BodyNode (Value.vNum 1) 0
        [Value.vNum 1] RunState.empty).2
      = Except.ok (Value.vObj [("output", Value.vBool false)])
      ∧ (Except.ok (Value.vObj [("output", Value.vBool false)]) : Except String Value)
          ≠ Except.ok (Value.vBool false) :=
  ⟨rfl, fun h => Value.noConfusion (Except.ok.inj h)⟩

/-- C4 (amended): every `executeNode` invocation with a registered template
that does not itself touch the results table appends exactly one entry,
keyed by the executed node's id, to the results log — whether the template
succeeds or throws.  The orchestrator's main loop invokes `executeNode`
once per node of the order, and `executeLoopBody` invokes it once more per
iteration for the loop-body node, so a loop-body node receives one write
per iteration in addition to its main-order write, each overwriting the
previous entry in the map view. -/
theorem c4_single_write_per_invocation (registry : Registry) (allNodes : List Node)
    (fuel : Nat) (node : Node) (st : RunState) (template : Template)
    (hreg : registry node.type = some template)
    (hblind : StateBlind template) :
    ∃ r : NodeExecutionResult,
      executeNodeF registry allNodes (fuel + 1) node st = (⟨st.log ++ [(node.id, r)]⟩, .ok r)
        ∧ r.nodeId = node.id := by
  have hb := hblind (getNodeInputs st node) node.data
    (mkCtx (fun n s => executeNodeF registry allNodes fuel n s) allNodes) st
  rcases hx : template.execute (getNodeInputs st node) node.data
      (mkCtx (fun n s => executeNodeF registry allNodes fuel n s) allNodes) st with ⟨st1, res⟩
  rw [hx] at hb
  simp only at hb
  subst hb
  cases res with
  | ok outputs =>
      refine ⟨okResult node outputs, ?_, rfl⟩
      simp only [executeNodeF, hreg, hx, setResult]
  | error e =>
      refine ⟨errResult node e, ?_, rfl⟩
      simp only [executeNodeF, hreg, hx, setResult]

/-- Closed instance of the single-write theorem at a concrete node and
state. -/
theorem c4_single_write_per_invocation_witness :
    ∃ r : NodeExecutionResult,
      executeNodeF (demoRegistry demoLoopTemplate) demoNodes 1
          { id := "b", type := "body", parentNode := some "l", isLoopBodyNode := true }
          RunState.empty
        = (⟨[("b", r)]⟩, .ok r) ∧ r.nodeId = "b" := by
  have h := c4_single_write_per_invocation (demoRegistry demoLoopTemplate) demoNodes 0
    { id := "b", type := "body", parentNode := some "l", isLoopBodyNode := true }
    RunState.empty (constTemplate [("output", Value.vNum 7)]) rfl
    (fun _ _ _ _ => rfl)
  exact h

/-- C4 counterexample: one successful `executeWorkflow` run of the demo
workflow (a loop node whose template performs two loop-body iterations)
writes the loop-body node's result three times — once per iteration plus
once when the body node comes up in the main execution order — not exactly
once. -/
theorem c4_counterexample :
    (executeWorkflowF (demoRegistry demoLoopTemplate) 10 demoWorkflow RunState.empty).2.success
        = true
      ∧ writeCount
          (executeWorkflowF (demoRegistry demoLoopTemplate) 10 demoWorkflow
            RunState.empty).2.results "b" = 3 :=
  ⟨rfl, rfl⟩

/-- C2 counterexample: in the demo workflow the loop node `l` (position 1 of
the execution order `[s, l, b, e]`, not last) fails after one successful
loop-body iteration; the run aborts with an error naming `l`, yet the
returned results map contains an entry for the body node `b`, which is
scheduled after `l` — contradicting "no entry for any node scheduled after
position i". -/
theorem c2_counterexample :
    (buildExecutionOrder demoNodes).map (fun l => l.map Node.id)
        = some ["s", "l", "b", "e"]
      ∧ validateWorkflow demoWorkflow = none
      ∧ (executeWorkflowF (demoRegistry demoLoopThenFailTemplate) 10 demoWorkflow
          RunState.empty).2.success = false
      ∧ (executeWorkflowF (demoRegistry demoLoopThenFailTemplate) 10 demoWorkflow
          RunState.empty).2.error
        = some "节点 l 执行失败: 第 1 项转换失败"
      ∧ hasResult (executeWorkflowF (demoRegistry demoLoopThenFailTemplate) 10 demoWorkflow
          RunState.empty).2.results "b" = true :=
  ⟨rfl, rfl, rfl, rfl, rfl⟩

/-- The last-write fold keeps a value once it holds one. -/
theorem resultsFold_some_isSome (id : String) :
    ∀ (l : List (String × NodeExecutionResult)) (r : NodeExecutionResult),
      (l.foldl (fun acc e => if e.fst == id then some e.snd else acc)
        (some r)).isSome = true := by
  intro l
  induction l with
  | nil => simp
  | cons e t ih =>
    intro r
    by_cases h : e.fst = id
    · have hbeq : (e.fst == id) = true := by simp [h]
      have h1 : (e :: t).foldl (fun acc e => if e.fst == id then some e.snd else acc)
          (some r) = t.foldl (fun acc e => if e.fst == id then some e.snd else acc)
          (some e.snd) := by
        simp [List.foldl_cons, hbeq, h]
      rw [h1]
      exact ih e.snd
    · have hbeq : (e.fst == id) = false := by simp [h]
      have h1 : (e :: t).foldl (fun acc e => if e.fst == id then some e.snd else acc)
          (some r) = t.foldl (fun acc e => if e.fst == id then some e.snd else acc)
          (some r) := by
        simp [List.foldl_cons, hbeq, h]
      rw [h1]
      exact ih r

/-- The last-write fold over a log has a value exactly when the accumulator
does or some entry matches the key. -/
theorem resultsFold_isSome (id : String) :
    ∀ (l : List (String × NodeExecutionResult)) (acc : Option NodeExecutionResult),
      (l.foldl (fun acc e => if e.fst == id then some e.snd else acc) acc).isSome
        = (acc.isSome || l.any (fun e => e.fst == id)) := by
  intro l
  induction l with
  | nil => simp
  | cons e t ih =>
    intro acc
    by_cases h : e.fst = id
    · have hbeq : (e.fst == id) = true := by simp [h]
      have h1 : (e :: t).foldl (fun acc e => if e.fst == id then some e.snd else acc)
          acc = t.foldl (fun acc e => if e.fst == id then some e.snd else acc)
          (some e.snd) := by
        simp [List.foldl_cons, hbeq, h]
      rw [h1, resultsFold_some_isSome id t e.snd]
      simp [List.any_cons, hbeq]
    · have hbeq : (e.fst == id) = false := by simp [h]
      have h1 : (e :: t).foldl (fun acc e => if e.fst == id then some e.snd else acc)
          acc = t.foldl (fun acc e => if e.fst == id then some e.snd else acc)
          acc := by
        simp [List.foldl_cons, hbeq, h]
      rw [h1, ih]
      simp [List.any_cons, hbeq]

/-- A results-map entry exists for a key exactly when the log holds a write
for it. -/
theorem hasResult_eq_any (st : RunState) (id : String) :
    hasResult st id = st.log.any (fun e => e.fst == id) := by
  have h := resultsFold_isSome id st.log none
  simpa [hasResult, resultsGet] using h

/-- A log entry makes the results map hold its key. -/
theorem hasResult_mem (st : RunState) (p : String × NodeExecutionResult)
    (hp : p ∈ st.log) : hasResult st p.fst = true := by
  rw [hasResult_eq_any]
  exact List.any_eq_true.mpr ⟨p, hp, by simp⟩

/-- A key written by no log entry is absent from the results map. -/
theorem hasResult_false_of_not_mem (st : RunState) (id : String)
    (h : ∀ p ∈ st.log, p.fst ≠ id) : hasResult st id = false := by
  rw [hasResult_eq_any]
  apply Bool.eq_false_iff.mpr
  intro hany
  rcases List.any_eq_true.mp hany with ⟨p, hp, hpid⟩
  exact h p hp (by simpa using hpid)

/-- Splitting the orchestrator's main loop over an appended order. -/
theorem runOrder_append (registry : Registry) (allNodes : List Node) (fuel : Nat) :
    ∀ (l1 l2 : List Node) (st : RunState) (fo : Option Value),
      runOrderF registry allNodes fuel (l1 ++ l2) st fo
        = match runOrderF registry allNodes fuel l1 st fo with
          | (st', .ok fo') => runOrderF registry allNodes fuel l2 st' fo'
          | (st', .error e) => (st', .error e) := by
  intro l1
  induction l1 with
  | nil => intro l2 st fo; simp [runOrderF]
  | cons n rest ih =>
    intro l2 st fo
    simp only [List.cons_append, runOrderF]
    rcases executeNodeF registry allNodes fuel n st with ⟨st', res⟩
    cases res with
    | error e => simp
    | ok r =>
      by_cases hs : r.success
      · simp [hs, ih]
      · simp [hs]

/-- Running a list of nodes whose templates are all registered, state-blind
and always-succeeding completes normally and appends exactly one successful
entry per node, keyed by the node ids in order. -/
theorem runOrder_all_ok (registry : Registry) (allNodes : List Node) (fuel : Nat) :
    ∀ (ns : List Node) (st : RunState) (fo : Option Value),
      (∀ n ∈ ns, ∃ t, registry n.type = some t ∧ AlwaysSucceeds t) →
      ∃ (ext : List (String × NodeExecutionResult)) (st' : RunState) (fo' : Option Value),
        runOrderF registry allNodes (fuel + 1) ns st fo = (st', .ok fo')
          ∧ st'.log = st.log ++ ext
          ∧ ext.map Prod.fst = ns.map Node.id
          ∧ ∀ e ∈ ext, e.snd.success = true := by
  intro ns
  induction ns with
  | nil =>
    intro st fo _
    exact ⟨[], st, fo, rfl, by simp, rfl, by simp⟩
  | cons n rest ih =>
    intro st fo h
    obtain ⟨t, hreg, hok⟩ := h n (List.mem_cons_self n rest)
    obtain ⟨outs, hex⟩ := hok (getNodeInputs st n) n.data
      (mkCtx (fun a b => executeNodeF registry allNodes fuel a b) allNodes) st
    have hnode : executeNodeF registry allNodes (fuel + 1) n st
        = (setResult st n.id (okResult n outs), .ok (okResult n outs)) := by
      simp only [executeNodeF, hreg, hex]
    obtain ⟨ext, st', fo', hrun, hlog, hkeys, hoks⟩ :=
      ih (setResult st n.id (okResult n outs))
        (if n.type == "workflow-end" then aget outs "finalOutput" else fo)
        (fun m hm => h m (List.mem_cons_of_mem n hm))
    refine ⟨(n.id, okResult n outs) :: ext, st', fo', ?_, ?_, ?_, ?_⟩
    · simp only [runOrderF, hnode]
      simpa [okResult] using hrun
    · rw [hlog]
      simp [setResult]
    · simp [hkeys]
    · intro e he
      rcases List.mem_cons.mp he with h' | h'
      · rw [h']
        rfl
      · exact hoks e h'

/-- C2 (amended): in a validated workflow whose execution order is
`pre ++ n :: post` with `n` not last, where the templates before `n` are
registered, always succeed and do not write the results table themselves
(no loop-body re-entry), and `n`'s template always throws, `executeWorkflow`
on a fresh executor returns `success = false` with an error naming `n` and
its error, the results map holds an entry for every node of `pre` and for
`n`, and no entry for any node of `post`.  Templates that re-enter the
executor through `executeLoopBody` can leave additional entries for nodes
scheduled later (see the counterexample), which the added hypotheses rule
out. -/
theorem c2_abort_on_failure (registry : Registry) (fuel : Nat) (w : Workflow)
    (pre post : List Node) (n : Node)
    (hvalid : validateWorkflow w = none)
    (horder : buildExecutionOrder w.nodes = some (pre ++ n :: post))
    (hnodup : ((pre ++ n :: post).map Node.id).Nodup)
    (hlast : post ≠ [])
    (hpre : ∀ m ∈ pre, ∃ t, registry m.type = some t ∧ AlwaysSucceeds t)
    (hfail : ∃ t, registry n.type = some t ∧ AlwaysThrows t) :
    ∃ (e : String) (st' : RunState),
      executeWorkflowF registry (fuel + 1) w RunState.empty
          = (st', { success := false, results := st', finalOutput := none,
                    error := some ("节点 " ++ n.id ++ " 执行失败: " ++ e) })
        ∧ (∀ m ∈ pre, hasResult st' m.id = true)
        ∧ hasResult st' n.id = true
        ∧ (∀ m ∈ post, hasResult st' m.id = false) := by
  obtain ⟨t, hreg, hthrow⟩ := hfail
  obtain ⟨ext, st1, fo1, hrun, hlog, hkeys, _⟩ :=
    runOrder_all_ok registry w.nodes fuel pre RunState.empty none hpre
  obtain ⟨e, hex⟩ := hthrow (getNodeInputs st1 n) n.data
    (mkCtx (fun a b => executeNodeF registry w.nodes fuel a b) w.nodes) st1
  have hnode : executeNodeF registry w.nodes (fuel + 1) n st1
      = (setResult st1 n.id (errResult n e), .ok (errResult n e)) := by
    simp only [executeNodeF, hreg, hex]
  have hfull : runOrderF registry w.nodes (fuel + 1) (pre ++ n :: post) RunState.empty none
      = (setResult st1 n.id (errResult n e),
         .error ("节点 " ++ n.id ++ " 执行失败: " ++ e)) := by
    rw [runOrder_append registry w.nodes (fuel + 1) pre (n :: post) RunState.empty none,
      hrun]
    simp only [runOrderF, hnode]
    rfl
  refine ⟨e, setResult st1 n.id (errResult n e), ?_, ?_, ?_, ?_⟩
  · simp only [executeWorkflowF, hvalid, horder, hfull]
  · intro m hm
    have hmem : m.id ∈ ext.map Prod.fst := by
      rw [hkeys]
      exact List.mem_map_of_mem Node.id hm
    obtain ⟨p, hp, hpid⟩ := List.mem_map.mp hmem
    rw [← hpid]
    apply hasResult_mem
    simp [setResult, hlog, RunState.empty, hp]
  · apply hasResult_mem (p := (n.id, errResult n e))
    simp [setResult]
  · intro m hm
    have hdisj : m.id ∉ List.map Node.id pre ∧ m.id ≠ n.id := by
      rw [List.map_append] at hnodup
      rcases List.nodup_append.mp hnodup with ⟨_, hnd2, hdis⟩
      constructor
      · intro hin
        refine hdis hin ?_
        simp only [List.map_cons, List.mem_cons]
        right
        exact List.mem_map_of_mem Node.id hm
      · intro heq
        simp only [List.map_cons, List.nodup_cons] at hnd2
        exact hnd2.1 (heq ▸ List.mem_map_of_mem Node.id hm)
    apply hasResult_false_of_not_mem
    intro p hp
    simp [setResult, hlog, RunState.empty] at hp
    rcases hp with hp | hp
    · intro heq
      apply hdisj.1
      rw [← heq]
      have hmm : p.fst ∈ ext.map Prod.fst := List.mem_map_of_mem Prod.fst hp
      rwa [hkeys] at hmm
    · rw [hp]
      intro heq
      exact hdisj.2 heq.symm

/-- Closed instance of the C2 abort theorem on the three-node chain with a
throwing middle node. -/
theorem c2_abort_on_failure_witness :
    ∃ (e : String) (st' : RunState),
      executeWorkflowF c2Registry 2 c2Workflow RunState.empty
          = (st', { success := false, results := st', finalOutput := none,
                    error := some ("节点 " ++ c2m.id ++ " 执行失败: " ++ e) })
        ∧ (∀ m ∈ [c2s], hasResult st' m.id = true)
        ∧ hasResult st' c2m.id = true
        ∧ (∀ m ∈ [c2e], hasResult st' m.id = false) := by
  refine c2_abort_on_failure c2Registry 1 c2Workflow [c2s] [c2e] c2m rfl rfl
    (by decide) (by simp) ?_ ?_
  · intro m hm
    have : m = c2s := by simpa using hm
    rw [this]
    exact ⟨constTemplate [("output", Value.vNum 1)], rfl,
      fun inputs data ctx st => ⟨[("output", Value.vNum 1)], rfl⟩⟩
  · exact ⟨failTemplate "boom error", rfl,
      fun inputs data ctx st => ⟨"boom error", rfl⟩⟩

/-- C8: a template-lookup failure is thrown inside `executeWorkflow`'s try
block and converted into a returned structured result: `success = false`,
the error message naming the missing type, and the accumulated results map
(entries for the nodes before the offending one, none for it or for later
ones).  `executeWorkflowF` is a total function into the structured result
type, so no exception escapes the public boundary for any input. -/
theorem c8_no_exception_escape (registry : Registry) (fuel : Nat) (w : Workflow)
    (pre post : List Node) (n : Node)
    (hvalid : validateWorkflow w = none)
    (horder : buildExecutionOrder w.nodes = some (pre ++ n :: post))
    (hnodup : ((pre ++ n :: post).map Node.id).Nodup)
    (hpre : ∀ m ∈ pre, ∃ t, registry m.type = some t ∧ AlwaysSucceeds t)
    (hmiss : registry n.type = none) :
    ∃ st' : RunState,
      executeWorkflowF registry (fuel + 1) w RunState.empty
          = (st', { success := false, results := st', finalOutput := none,
                    error := some ("未找到节点类型模板: " ++ n.type) })
        ∧ (∀ m ∈ pre, hasResult st' m.id = true)
        ∧ hasResult st' n.id = false
        ∧ (∀ m ∈ post, hasResult st' m.id = false) := by
  obtain ⟨ext, st1, fo1, hrun, hlog, hkeys, _⟩ :=
    runOrder_all_ok registry w.nodes fuel pre RunState.empty none hpre
  have hnode : executeNodeF registry w.nodes (fuel + 1) n st1
      = (st1, .error ("未找到节点类型模板: " ++ n.type)) := by
    simp only [executeNodeF, hmiss]
  have hfull : runOrderF registry w.nodes (fuel + 1) (pre ++ n :: post) RunState.empty none
      = (st1, .error ("未找到节点类型模板: " ++ n.type)) := by
    rw [runOrder_append registry w.nodes (fuel + 1) pre (n :: post) RunState.empty none,
      hrun]
    simp only [runOrderF, hnode]
  have hnotin : ∀ x : Node, x.id ∉ List.map Node.id pre → hasResult st1 x.id = false := by
    intro x hx
    apply hasResult_false_of_not_mem
    intro p hp
    simp [hlog, RunState.empty] at hp
    intro heq
    apply hx
    rw [← heq]
    have hmm : p.fst ∈ ext.map Prod.fst := List.mem_map_of_mem Prod.fst hp
    rwa [hkeys] at hmm
  rw [List.map_append] at hnodup
  rcases List.nodup_append.mp hnodup with ⟨_, hnd2, hdis⟩
  refine ⟨st1, ?_, ?_, ?_, ?_⟩
  · simp only [executeWorkflowF, hvalid, horder, hfull]
  · intro m hm
    have hmem : m.id ∈ ext.map Prod.fst := by
      rw [hkeys]
      exact List.mem_map_of_mem Node.id hm
    obtain ⟨p, hp, hpid⟩ := List.mem_map.mp hmem
    rw [← hpid]
    apply hasResult_mem
    simp [hlog, RunState.empty, hp]
  · apply hnotin
    intro hin
    exact hdis hin (by simp)
  · intro m hm
    apply hnotin
    intro hin
    refine hdis hin ?_
    simp only [List.map_cons, List.mem_cons]
    right
    exact List.mem_map_of_mem Node.id hm

/-- Closed instance of the C8 template-lookup theorem: the chain workflow
run against a registry with no template for the middle node's type. -/
theorem c8_no_exception_escape_witness :
    ∃ st' : RunState,
      executeWorkflowF c8Registry 2 c2Workflow RunState.empty
          = (st', { success := false, results := st', finalOutput := none,
                    error := some ("未找到节点类型模板: " ++ c2m.type) })
        ∧ (∀ m ∈ [c2s], hasResult st' m.id = true)
        ∧ hasResult st' c2m.id = false
        ∧ (∀ m ∈ [c2e], hasResult st' m.id = false) := by
  refine c8_no_exception_escape c8Registry 1 c2Workflow [c2s] [c2e] c2m rfl rfl
    (by decide) ?_ rfl
  intro m hm
  have : m = c2s := by simpa using hm
  rw [this]
  exact ⟨constTemplate [("output", Value.vNum 1)], rfl,
    fun inputs data ctx st => ⟨[("output", Value.vNum 1)], rfl⟩⟩

/-- C3: whenever validation fails, `executeWorkflow` on a freshly
constructed executor returns `success = false` with the validation error and
the empty results map, executing no node (first conjunct); the checks run in
source order and short-circuit — a start-node defect wins over everything,
then an end-node defect, then a cycle, then unreachability (middle
conjuncts); and a workflow that passes validation has exactly one start
node, exactly one end node, no cycle found, and no unreachable node (last
conjunct), so every workflow in one of the five defect classes is rejected
before any node executes. -/
theorem c3_validation_gating (registry : Registry) (fuel : Nat) (w : Workflow) :
    (∀ e, validateWorkflow w = some e →
        executeWorkflowF registry fuel w RunState.empty
          = (RunState.empty, { success := false, results := RunState.empty,
                               finalOutput := none, error := some e }))
  ∧ ((w.nodes.filter (fun n => n.type == "workflow-start")).length = 0 →
        validateWorkflow w = some "工作流必须包含一个开始节点")
  ∧ ((w.nodes.filter (fun n => n.type == "workflow-start")).length > 1 →
        validateWorkflow w = some "工作流只能有一个开始节点")
  ∧ ((w.nodes.filter (fun n => n.type == "workflow-start")).length = 1 →
      (w.nodes.filter (fun n => n.type == "workflow-end")).length = 0 →
        validateWorkflow w = some "工作流必须包含一个结束节点")
  ∧ ((w.nodes.filter (fun n => n.type == "workflow-start")).length = 1 →
      (w.nodes.filter (fun n => n.type == "workflow-end")).length > 1 →
        validateWorkflow w = some "工作流只能有一个结束节点")
  ∧ ((w.nodes.filter (fun n => n.type == "workflow-start")).length = 1 →
      (w.nodes.filter (fun n => n.type == "workflow-end")).length = 1 →
      hasCycles w.nodes w.edges = true →
        validateWorkflow w = some "工作流不能包含循环连接")
  ∧ (∀ s rest, w.nodes.filter (fun n => n.type == "workflow-start") = s :: rest →
      rest = [] →
      (w.nodes.filter (fun n => n.type == "workflow-end")).length = 1 →
      hasCycles w.nodes w.edges = false →
      (w.nodes.filter (fun n => decide (n.id ∉ getReachableNodes s w.edges))).length > 0 →
        validateWorkflow w
          = some ("存在不可达的节点: " ++ String.intercalate ", "
              ((w.nodes.filter
                  (fun n => decide (n.id ∉ getReachableNodes s w.edges))).map Node.id)))
  ∧ (validateWorkflow w = none →
      (w.nodes.filter (fun n => n.type == "workflow-start")).length = 1
        ∧ (w.nodes.filter (fun n => n.type == "workflow-end")).length = 1
        ∧ hasCycles w.nodes w.edges = false
        ∧ ∀ s rest, w.nodes.filter (fun n => n.type == "workflow-start") = s :: rest →
            w.nodes.filter (fun n => decide (n.id ∉ getReachableNodes s w.edges)) = []) := by
  refine ⟨fun e hv => ?_, fun h0 => ?_, fun h1 => ?_, fun h1 h2 => ?_, fun h1 h2 => ?_,
    fun h1 h2 h3 => ?_, fun s rest hf hrest h2 h3 h4 => ?_, fun hv => ?_⟩
  · simp only [executeWorkflowF, hv]
  · have hf : w.nodes.filter (fun n => n.type == "workflow-start") = [] :=
      List.length_eq_zero.mp h0
    simp only [validateWorkflow, hf]
  · rcases hf : w.nodes.filter (fun n => n.type == "workflow-start") with _ | ⟨s, rest⟩
    · rw [hf] at h1
      simp at h1
    · rw [hf] at h1
      simp only [List.length_cons] at h1
      have hr : rest.length > 0 := by omega
      simp only [validateWorkflow, hf]
      rw [if_pos hr]
  · obtain ⟨s, hf⟩ := List.length_eq_one.mp h1
    simp [validateWorkflow, hf, h2]
  · obtain ⟨s, hf⟩ := List.length_eq_one.mp h1
    have hne : (w.nodes.filter (fun n => n.type == "workflow-end")).length ≠ 0 := by
      omega
    simp [validateWorkflow, hf, hne, h2]
  · obtain ⟨s, hf⟩ := List.length_eq_one.mp h1
    simp [validateWorkflow, hf, h2, h3]
  · subst hrest
    simp [validateWorkflow, hf, h2, h3, h4]
    obtain ⟨x, hx⟩ := List.exists_mem_of_length_pos h4
    obtain ⟨hx1, hx2⟩ := List.mem_filter.mp hx
    exact ⟨x, hx1, by simpa using hx2⟩
  · rcases hf : w.nodes.filter (fun n => n.type == "workflow-start") with _ | ⟨s, rest⟩
    · simp only [validateWorkflow, hf] at hv
      exact absurd hv (by simp)
    · simp only [validateWorkflow, hf] at hv
      split_ifs at hv with hr he0 he1 hcy hun
      have hrest : rest = [] := by
        apply List.length_eq_zero.mp
        omega
      have he0' : (w.nodes.filter (fun n => n.type == "workflow-end")).length ≠ 0 := by
        simpa using he0
      refine ⟨?_, ?_, ?_, ?_⟩
      · rw [hf, hrest]
        rfl
      · omega
      · simpa using hcy
      · intro s' rest' hf'
        rw [hf] at hf'
        cases hf'
        apply List.length_eq_zero.mp
        omega

/-- A node of the set is findable by its own id. -/
theorem find_id_isSome_of_mem (nodes : List Node) (n : Node) (hn : n ∈ nodes) :
    (nodes.find? (fun q => q.id == n.id)).isSome = true :=
  List.find?_isSome.mpr ⟨n, hn, by simp⟩

/-- Two nodes of a set with distinct ids are equal when their ids agree. -/
theorem node_eq_of_id_eq (nodes : List Node) (hnd : (nodes.map Node.id).Nodup)
    {x y : Node} (hx : x ∈ nodes) (hy : y ∈ nodes) (hid : x.id = y.id) : x = y :=
  List.inj_on_of_nodup_map hnd hx hy hid

/-- Appending a node whose resolvable parent already occurs preserves the
parent-before-child property. -/
theorem parentsBefore_append (nodes : List Node) (l : List Node) (node : Node)
    (h : ParentsBefore nodes l)
    (hnew : ∀ pid, parentRef node = some pid →
      (nodes.find? (fun q => q.id == pid)).isSome = true → pid ∈ l.map Node.id) :
    ParentsBefore nodes (l ++ [node]) := by
  intro i hi pid hpar hfind
  rcases Nat.lt_or_ge i l.length with hlt | hge
  · have hget : (l ++ [node])[i] = l[i] := List.getElem_append_left hlt
    have htake : (l ++ [node]).take i = l.take i := by
      rw [List.take_append_eq_append_take]
      have : i - l.length = 0 := by omega
      simp [this]
    rw [hget] at hpar
    rw [htake]
    exact h i hlt pid hpar hfind
  · have hieq : i = l.length := by
      simp only [List.length_append, List.length_singleton] at hi
      omega
    have hget : (l ++ [node])[i] = node := List.getElem_concat_length l node i hieq hi
    have htake : (l ++ [node]).take i = l := by
      rw [hieq]
      exact List.take_left l [node]
    rw [hget] at hpar
    rw [htake]
    exact hnew pid hpar hfind

/-- Main invariant lemma for one `buildChainFromNode` call: a completed call
preserves the builder invariant, only appends to the built order, only grows
the processed set, and leaves the requested id processed whenever its node
is findable. -/
theorem buildChainAux_spec (nodes : List Node) :
    ∀ (fuel : Nat) (seen : List String) (nodeId : String) (st st' : BuildState),
      buildChainAux nodes fuel seen nodeId st = some st' →
      ChainInv nodes st →
      ChainInv nodes st'
        ∧ (∃ ext, st'.result = st.result ++ ext)
        ∧ (∀ x ∈ st.processed, x ∈ st'.processed)
        ∧ ((nodes.find? (fun q => q.id == nodeId)).isSome = true →
            nodeId ∈ st'.processed) := by
  intro fuel
  induction fuel with
  | zero =>
    intro seen nodeId st st' h
    simp [buildChainAux] at h
  | succ fuel ih =>
    intro seen nodeId st st' h hinv
    simp only [buildChainAux] at h
    by_cases hproc : nodeId ∈ st.processed
    · rw [if_pos hproc] at h
      cases h
      exact ⟨hinv, ⟨[], by simp⟩, fun x hx => hx, fun _ => hproc⟩
    · rw [if_neg hproc] at h
      rcases hfind : nodes.find? (fun n => n.id == nodeId) with _ | node
      · rw [hfind] at h
        simp only at h
        cases h
        refine ⟨hinv, ⟨[], by simp⟩, fun x hx => hx, fun hsome => ?_⟩
        rw [hfind] at hsome
        simp at hsome
      · rw [hfind] at h
        simp only at h
        have hid : node.id = nodeId := by
          have := List.find?_some hfind
          simpa using this
        have hnodemem : node ∈ nodes := List.mem_of_find?_eq_some hfind
        -- facts about the state after the parent step
        have key : ∀ st1 : BuildState,
            ChainInv nodes st1 → (∃ ext, st1.result = st.result ++ ext) →
            (∀ x ∈ st.processed, x ∈ st1.processed) →
            (∀ pid, parentRef node = some pid →
              (nodes.find? (fun q => q.id == pid)).isSome = true →
              pid ∈ st1.processed) →
            (if nodeId ∈ st1.processed then some st1
              else some (⟨st1.result ++ [node], st1.processed ++ [nodeId]⟩ : BuildState))
              = some st' →
            ChainInv nodes st'
              ∧ (∃ ext, st'.result = st.result ++ ext)
              ∧ (∀ x ∈ st.processed, x ∈ st'.processed)
              ∧ nodeId ∈ st'.processed := by
          intro st1 hinv1 hext1 hmono1 hpar1 hfin
          by_cases hmem : nodeId ∈ st1.processed
          · rw [if_pos hmem] at hfin
            cases hfin
            exact ⟨hinv1, hext1, hmono1, hmem⟩
          · rw [if_neg hmem] at hfin
            cases hfin
            obtain ⟨hmap1, hnd1, helem1, hpb1⟩ := hinv1
            refine ⟨⟨?_, ?_, ?_, ?_⟩, ?_, ?_, ?_⟩
            · simp [hmap1, hid]
            · rw [List.nodup_append]
              refine ⟨hnd1, List.nodup_singleton nodeId, ?_⟩
              intro x hx hx1
              rw [List.mem_singleton] at hx1
              exact hmem (hx1 ▸ hx)
            · intro x hx
              rcases List.mem_append.mp hx with hx | hx
              · exact helem1 x hx
              · rw [List.mem_singleton] at hx
                exact hx ▸ hnodemem
            · refine parentsBefore_append nodes st1.result node hpb1 ?_
              intro pid hp hf
              rw [hmap1]
              exact hpar1 pid hp hf
            · obtain ⟨ext, hext⟩ := hext1
              exact ⟨ext ++ [node], by simp [hext]⟩
            · intro x hx
              exact List.mem_append.mpr (Or.inl (hmono1 x hx))
            · simp
        rcases hpar : parentRef node with _ | p
        · rw [hpar] at h
          simp only at h
          have := key st hinv ⟨[], by simp⟩ (fun x hx => hx)
            (fun pid hp _ => by rw [hpar] at hp; cases hp) h
          exact ⟨this.1, this.2.1, this.2.2.1, fun _ => this.2.2.2⟩
        · rw [hpar] at h
          simp only at h
          by_cases hp1 : p ∈ st.processed
          · rw [if_pos hp1] at h
            have := key st hinv ⟨[], by simp⟩ (fun x hx => hx)
              (fun pid hp _ => by
                rw [hpar] at hp
                cases hp
                exact hp1) h
            exact ⟨this.1, this.2.1, this.2.2.1, fun _ => this.2.2.2⟩
          · rw [if_neg hp1] at h
            by_cases hp2 : p ∈ seen
            · rw [if_pos hp2] at h
              simp at h
            · rw [if_neg hp2] at h
              by_cases hp3 : (nodes.find? (fun q => q.id == p)).isSome = true
              · rw [if_pos hp3] at h
                rcases hrec : buildChainAux nodes fuel (p :: seen) p st with _ | st1
                · rw [hrec] at h
                  simp at h
                · rw [hrec] at h
                  simp only at h
                  obtain ⟨hinv1, hext1, hmono1, hlast1⟩ := ih (p :: seen) p st st1 hrec hinv
                  have := key st1 hinv1 hext1 hmono1
                    (fun pid hp hf => by
                      rw [hpar] at hp
                      cases hp
                      exact hlast1 hp3) h
                  exact ⟨this.1, this.2.1, this.2.2.1, fun _ => this.2.2.2⟩
              · rw [if_neg hp3] at h
                have := key st hinv ⟨[], by simp⟩ (fun x hx => hx)
                  (fun pid hp hf => by
                    rw [hpar] at hp
                    cases hp
                    exact absurd hf hp3) h
                exact ⟨this.1, this.2.1, this.2.2.1, fun _ => this.2.2.2⟩

/-- A repetition-free parent walk guarantees the chain call completes (the
divergence marker never arises). -/
theorem buildChainAux_isSome_of_noLoop (nodes : List Node) :
    ∀ (fuel : Nat) (seen : List String) (id : String) (st : BuildState),
      noLoopFromAux nodes fuel seen id = true →
      (buildChainAux nodes fuel seen id st).isSome = true := by
  intro fuel
  induction fuel with
  | zero =>
    intro seen id st hnl
    simp [noLoopFromAux] at hnl
  | succ fuel ih =>
    intro seen id st hnl
    simp only [noLoopFromAux] at hnl
    simp only [buildChainAux]
    by_cases hproc : id ∈ st.processed
    · rw [if_pos hproc]
      rfl
    · rw [if_neg hproc]
      rcases hfind : nodes.find? (fun n => n.id == id) with _ | node
      · rw [hfind]
        rfl
      · rw [hfind] at hnl
        rw [hfind]
        simp only at hnl ⊢
        rcases hpar : parentRef node with _ | p
        · simp only
          split <;> rfl
        · rw [hpar] at hnl
          simp only at hnl ⊢
          by_cases hp1 : p ∈ st.processed
          · rw [if_pos hp1]
            simp only
            split <;> rfl
          · rw [if_neg hp1]
            by_cases hp2 : p ∈ seen
            · rw [if_pos hp2] at hnl
              simp at hnl
            · rw [if_neg hp2] at hnl
              by_cases hp3 : (nodes.find? (fun q => q.id == p)).isSome = true
              · rw [if_pos hp3] at hnl
                rw [if_pos hp3]
                have hsome := ih (p :: seen) p st hnl
                rcases hrec : buildChainAux nodes fuel (p :: seen) p st with _ | st1
                · rw [hrec] at hsome
                  simp at hsome
                · rw [if_neg hp2]
                  simp only
                  split <;> rfl
              · rw [if_neg hp3, if_neg hp2]
                simp only
                split <;> rfl

/-- The chain loops preserve the invariant and process every findable node
of the worked list. -/
theorem runChains_spec (nodes : List Node) :
    ∀ (todo : List Node) (st st' : BuildState),
      runChains nodes todo st = some st' →
      ChainInv nodes st →
      ChainInv nodes st'
        ∧ (∃ ext, st'.result = st.result ++ ext)
        ∧ (∀ x ∈ st.processed, x ∈ st'.processed)
        ∧ (∀ n ∈ todo, n ∈ nodes → n.id ∈ st'.processed) := by
  intro todo
  induction todo with
  | nil =>
    intro st st' h hinv
    cases h
    exact ⟨hinv, ⟨[], by simp⟩, fun x hx => hx, fun n hn => by cases hn⟩
  | cons n rest ih =>
    intro st st' h hinv
    simp only [runChains] at h
    rcases hbc : buildChainFromNode nodes [n.id] n.id st with _ | st1
    · rw [hbc] at h
      simp at h
    · rw [hbc] at h
      simp only at h
      obtain ⟨hinv1, hext1, hmono1, hlast1⟩ :=
        buildChainAux_spec nodes (nodes.length + 1) [n.id] n.id st st1 hbc hinv
      obtain ⟨hinv2, hext2, hmono2, hlast2⟩ := ih st1 st' h hinv1
      refine ⟨hinv2, ?_, fun x hx => hmono2 x (hmono1 x hx), ?_⟩
      · obtain ⟨e1, he1⟩ := hext1
        obtain ⟨e2, he2⟩ := hext2
        exact ⟨e1 ++ e2, by simp [he1, he2]⟩
      · intro m hm hmem
        rcases List.mem_cons.mp hm with hm | hm
        · subst hm
          exact hmono2 m.id (hlast1 (find_id_isSome_of_mem nodes m hmem))
        · exact hlast2 m hm hmem

/-- A returned execution order has no repeated ids, draws its nodes from the
node set, covers every node's id, and places every resolvable parent before
its child. -/
theorem buildOrder_spec (nodes order : List Node)
    (h : buildExecutionOrder nodes = some order) :
    (order.map Node.id).Nodup
      ∧ (∀ x ∈ order, x ∈ nodes)
      ∧ (∀ n ∈ nodes, n.id ∈ order.map Node.id)
      ∧ ParentsBefore nodes order := by
  have hinv0 : ChainInv nodes ⟨[], []⟩ := by
    refine ⟨rfl, List.nodup_nil, ?_, ?_⟩
    · intro x hx
      cases hx
    · intro i hi pid
      exact absurd hi (by simp)
  simp only [buildExecutionOrder] at h
  rcases hr1 : runChains nodes (nodes.filter (fun n => (parentRef n).isNone)) ⟨[], []⟩
      with _ | st1
  · rw [hr1] at h
    simp at h
  · rw [hr1] at h
    simp only at h
    rcases hr2 : runChains nodes nodes st1 with _ | st2
    · rw [hr2] at h
      simp at h
    · rw [hr2] at h
      simp only at h
      cases h
      obtain ⟨hinv1, _, _, _⟩ := runChains_spec nodes _ _ _ hr1 hinv0
      obtain ⟨⟨hmap2, hnd2, helem2, hpb2⟩, _, _, hcover2⟩ :=
        runChains_spec nodes nodes st1 st2 hr2 hinv1
      refine ⟨?_, helem2, ?_, hpb2⟩
      · rw [hmap2]
        exact hnd2
      · intro n hn
        rw [hmap2]
        exact hcover2 n hn hn

/-- A parent structure in which every chain is repetition-free makes the
order builder complete. -/
theorem buildOrder_isSome_of_acyclic (nodes : List Node)
    (hacyc : AcyclicParents nodes) :
    ∃ order, buildExecutionOrder nodes = some order := by
  have hchains : ∀ (todo : List Node) (st : BuildState),
      (∀ n ∈ todo, n ∈ nodes) →
      ∃ st', runChains nodes todo st = some st' := by
    intro todo
    induction todo with
    | nil => intro st _; exact ⟨st, rfl⟩
    | cons n rest ih =>
      intro st htodo
      have hnl : noLoopFrom nodes [n.id] n.id = true :=
        hacyc n (htodo n (List.mem_cons_self n rest))
      have hsome : (buildChainFromNode nodes [n.id] n.id st).isSome = true :=
        buildChainAux_isSome_of_noLoop nodes (nodes.length + 1) [n.id] n.id st hnl
      rcases hbc : buildChainFromNode nodes [n.id] n.id st with _ | st1
      · rw [hbc] at hsome
        simp at hsome
      · obtain ⟨st', hst'⟩ := ih st1
          (fun m hm => htodo m (List.mem_cons_of_mem n hm))
        refine ⟨st', ?_⟩
        simp only [runChains, hbc]
        exact hst'
  obtain ⟨st1, h1⟩ := hchains (nodes.filter (fun n => (parentRef n).isNone)) ⟨[], []⟩
    (fun n hn => (List.mem_filter.mp hn).1)
  obtain ⟨st2, h2⟩ := hchains nodes st1 (fun n hn => hn)
  refine ⟨st2.result, ?_⟩
  simp only [buildExecutionOrder, h1, h2]

/-- C5 (amended): for every node list with pairwise-distinct ids whose
`parentNode` pointer structure is acyclic, the order builder completes and
returns an order of the same length in which every input node appears
exactly once; a dangling parent reference never causes a failure (the
acyclicity predicate treats it as chain end, matching the builder).  The
counterexample shows both amendments are necessary: a parent cycle makes
the JavaScript builder recurse forever, and duplicated ids shorten the
order. -/
theorem c5_order_complete (nodes : List Node)
    (hnd : (nodes.map Node.id).Nodup) (hacyc : AcyclicParents nodes) :
    ∃ order, buildExecutionOrder nodes = some order
      ∧ order.length = nodes.length
      ∧ ∀ n ∈ nodes, n ∈ order ∧ (order.map Node.id).count n.id = 1 := by
  obtain ⟨order, horder⟩ := buildOrder_isSome_of_acyclic nodes hacyc
  obtain ⟨hondp, helem, hcover, _⟩ := buildOrder_spec nodes order horder
  have hsub : order.map Node.id ⊆ nodes.map Node.id := by
    intro a ha
    obtain ⟨x, hx, hxa⟩ := List.mem_map.mp ha
    exact hxa ▸ List.mem_map_of_mem Node.id (helem x hx)
  have hsup : nodes.map Node.id ⊆ order.map Node.id := by
    intro a ha
    obtain ⟨x, hx, hxa⟩ := List.mem_map.mp ha
    exact hxa ▸ hcover x hx
  have hlen : order.length = nodes.length := by
    have h1 := (hondp.subperm hsub).length_le
    have h2 := (hnd.subperm hsup).length_le
    simp only [List.length_map] at h1 h2
    omega
  refine ⟨order, horder, hlen, fun n hn => ?_⟩
  have hidmem : n.id ∈ order.map Node.id := hcover n hn
  obtain ⟨x, hx, hxid⟩ := List.mem_map.mp hidmem
  have hxn : x = n := node_eq_of_id_eq nodes hnd (helem x hx) hn hxid
  subst hxn
  refine ⟨hx, ?_⟩
  have hle := List.nodup_iff_count_le_one.mp hondp x.id
  have hpos := List.count_pos_iff.mpr hidmem
  omega

/-- Closed instance of the C5 completeness theorem on the four-node demo
workflow. -/
theorem c5_order_complete_witness :
    ∃ order, buildExecutionOrder demoNodes = some order
      ∧ order.length = demoNodes.length
      ∧ ∀ n ∈ demoNodes, n ∈ order ∧ (order.map Node.id).count n.id = 1 :=
  c5_order_complete demoNodes (by decide) (by unfold AcyclicParents; decide)

/-- C5 counterexample: the builder does not terminate on a two-node parent
cycle (the divergence marker), and a node list with duplicated ids yields an
order of length 1 instead of 2 — refuting "terminates and returns an order
in which every input node appears exactly once, so the returned order's
length equals the input node count" for arbitrary parent shapes. -/
theorem c5_counterexample :
    (buildExecutionOrder c5CycNodes).isNone = true
      ∧ (buildExecutionOrder c5DupNodes).map List.length = some 1
      ∧ c5DupNodes.length = 2 :=
  ⟨rfl, rfl, rfl⟩

/-- C6: whenever the order builder returns an order for a node list with
pairwise-distinct ids, a node whose `parentNode` refers to another node of
the list is placed strictly after that node. -/
theorem c6_parent_before_child (nodes order : List Node) (n p : Node)
    (horder : buildExecutionOrder nodes = some order)
    (hnd : (nodes.map Node.id).Nodup)
    (hn : n ∈ nodes) (hp : p ∈ nodes)
    (hpar : parentRef n = some p.id) :
    ∃ i j, ∃ (hi : i < order.length) (hj : j < order.length),
      j < i ∧ order[j] = p ∧ order[i] = n := by
  obtain ⟨hondp, helem, hcover, hpb⟩ := buildOrder_spec nodes order horder
  have hnin : n.id ∈ order.map Node.id := hcover n hn
  obtain ⟨x, hxmem, hxid⟩ := List.mem_map.mp hnin
  have hx : x = n := node_eq_of_id_eq nodes hnd (helem x hxmem) hn hxid
  subst hx
  obtain ⟨⟨i, hi⟩, hgi⟩ := List.get_of_mem hxmem
  have hgi' : order[i] = x := by
    rw [← hgi]
    simp [List.get_eq_getElem]
  have hpid : p.id ∈ (order.take i).map Node.id := by
    apply hpb i hi p.id
    · rw [hgi']
      exact hpar
    · exact find_id_isSome_of_mem nodes p hp
  obtain ⟨y, hymem, hyid⟩ := List.mem_map.mp hpid
  have hyorder : y ∈ order := List.mem_of_mem_take hymem
  have hy : y = p := node_eq_of_id_eq nodes hnd (helem y hyorder) hp hyid
  subst hy
  obtain ⟨j, hjm, hgj⟩ := List.mem_take_iff_getElem.mp hymem
  have hjlt : j < i := lt_of_lt_of_le hjm (min_le_left i order.length)
  have hjlen : j < order.length := lt_of_lt_of_le hjm (min_le_right i order.length)
  exact ⟨i, j, hi, hjlen, hjlt, hgj, hgi'⟩

/-- Closed instance of the C6 ordering theorem: in the demo workflow the
loop node is placed strictly before its loop-body child. -/
theorem c6_parent_before_child_witness :
    ∃ i j, ∃ (hi : i < ([sNode, lNode, bNode, eNode] : List Node).length)
        (hj : j < ([sNode, lNode, bNode, eNode] : List Node).length),
      j < i ∧ [sNode, lNode, bNode, eNode][j] = lNode
        ∧ [sNode, lNode, bNode, eNode][i] = bNode := by
  have h := c6_parent_before_child demoNodes [sNode, lNode, bNode, eNode] bNode lNode
    rfl (by decide) (by simp [demoNodes]) (by simp [demoNodes]) rfl
  exact h

end Engine
